import Mathlib

/-!
Verification of the generational aging registry ("LoopLifetimeManager",
PyPy's `MemoryManager` from `pypy/jit/metainterp/memmgr.py`) against its
specification.  The manager module itself is absent from the source
snapshot; only its unit tests (`pypy/jit/metainterp/test/test_memmgr.py`)
are present.  The manager is therefore modelled from the spec (purpose,
data model and operation contracts of spec.md sections 3, 4, 6 and 7),
while the concrete representation follows what the tests in the snapshot
pin down: `FakeLoopToken` gives every handle object a mutable
`generation` field and an `invalidated` flag, and the tests compare
`memmgr.alive_loops` against dictionaries built with `dict.fromkeys`,
i.e. dictionaries all of whose values are `None`.

Handles are modelled by natural-number identities; the heap of handle
objects is a function from identity to `LoopToken` record, mimicking the
mutable Python objects.  The retention dictionary `alive_loops` is a
list of (key, value) pairs whose values have type `Option Nat` — the
type could carry a per-handle payload, and the development proves it
never does (all stored values are `none`).
-/

namespace MemMgr

/-- A loop token: the handle object for one compiled artifact.  Modelled
from the spec: `memmgr.py` is not in the snapshot; the fields follow the
stub `FakeLoopToken` of `test_memmgr.py`, which equips every handle with
a mutable `generation` attribute (initially 0) and an `invalidated` flag
(initially `False`). -/
structure LoopToken where
  generation : Nat
  invalidated : Bool
deriving Repr, DecidableEq

/-- State of the memory manager.  Modelled from the spec: `max_age` and
`check_interval` are the aging policy (spec section 3, Configuration),
`current_generation` the generation counter (starts at 0, incremented
only by `next_generation`), `alive_loops` the retention dictionary, and
`store` the heap of handle objects keyed by handle identity. -/
structure MemState where
  max_age : Nat
  check_interval : Nat
  current_generation : Nat
  alive_loops : List (Nat × Option Nat)
  store : Nat → LoopToken

/-- The initial manager state: generation counter 0, empty retention
dictionary, aging disabled until configured (spec section 3: `max_age`
0 means aging is disabled; `configure` defaults `check_interval` to 1).
Every handle object starts like `FakeLoopToken`: generation 0, not
invalidated. -/
def initState : MemState :=
  { max_age := 0
    check_interval := 1
    current_generation := 0
    alive_loops := []
    store := fun _ => { generation := 0, invalidated := false } }

/-- Modelled from the spec (section 4.1, `configure`; section 7,
ConfigurationError): validates `max_age ≥ 0` and `check_interval ≥ 1`;
on violation reports an error (second component `true`) and leaves the
state unchanged (all-or-nothing); on success only the two policy fields
change.  It never sweeps and never touches the generation counter. -/
def configure (s : MemState) (max_age check_interval : Int) : MemState × Bool :=
  if max_age < 0 ∨ check_interval < 1 then (s, true)
  else ({ s with max_age := max_age.toNat, check_interval := check_interval.toNat }, false)

/-- Modelled from the spec (section 4.1, `touch`; the source name, used
by the tests, is `keep_loop_alive`): records that the handle is in use by
setting its last-touched generation to the current generation — stored,
as the tests force, on the handle object itself — and making it a key of
`alive_loops` with value `None`, inserting if absent and never
duplicating an existing key. -/
def keep_loop_alive (s : MemState) (h : Nat) : MemState :=
  { s with
    store := fun x =>
      if x = h then { s.store h with generation := s.current_generation } else s.store x
    alive_loops :=
      if s.alive_loops.any (fun e => e.1 == h) then
        s.alive_loops.map (fun e => if e.1 == h then (e.1, none) else e)
      else
        s.alive_loops ++ [(h, none)] }

/-- An entry of the retention dictionary is stale when the age of its
handle — current generation minus the handle's last-touched generation —
has reached `max_age` (spec section 4.1, `advance`: the boundary is
greater-or-equal). -/
def stale (ma gen : Nat) (store : Nat → LoopToken) (e : Nat × Option Nat) : Bool :=
  decide (ma ≤ gen - (store e.1).generation)

/-- Modelled from the spec (section 4.1, `advance`; the source name,
used by the tests, is `next_generation`): increments the generation
counter, then, if and only if `max_age > 0` and the incremented counter
is divisible by `check_interval`, sweeps: every entry whose age is at
least `max_age` is removed, and the list of removed handles is returned
to the caller (spec section 6, eviction notification).  Otherwise the
retention dictionary is untouched and the empty list is returned. -/
def next_generation (s : MemState) : MemState × List Nat :=
  if 0 < s.max_age ∧ (s.current_generation + 1) % s.check_interval = 0 then
    ({ s with current_generation := s.current_generation + 1
              alive_loops := s.alive_loops.filter
                (fun e => ! stale s.max_age (s.current_generation + 1) s.store e) },
     (s.alive_loops.filter
        (fun e => stale s.max_age (s.current_generation + 1) s.store e)).map Prod.fst)
  else
    ({ s with current_generation := s.current_generation + 1 }, [])

/-- Modelled from the spec (section 4.1, `retained_handles`): the
currently retained handles, i.e. the key set of `alive_loops`. -/
def retained_handles (s : MemState) : List Nat :=
  s.alive_loops.map Prod.fst

/-- Modelled from the spec (section 4.1, `is_alive`): membership query
against the retention dictionary. -/
def is_alive (s : MemState) (h : Nat) : Bool :=
  s.alive_loops.any (fun e => e.1 == h)

/-- States reachable from the initial state by any sequence of
operations. -/
inductive Reachable : MemState → Prop where
  | init : Reachable initState
  | config (s : MemState) (a b : Int) : Reachable s → Reachable (configure s a b).1
  | touch (s : MemState) (h : Nat) : Reachable s → Reachable (keep_loop_alive s h)
  | advance (s : MemState) : Reachable s → Reachable (next_generation s).1

/-- The scenario of `test_basic` (spec section 8, Basic aging): policy
`max_age = 4, check_interval = 1`; for each of the handles `0..n-1` in
order, touch it and advance once. -/
def runBasic : Nat → MemState
  | 0 => (configure initState 4 1).1
  | n + 1 => (next_generation (keep_loop_alive (runBasic n) n)).1

/-- The scenario of `test_disabled` (spec section 8, Disabled aging):
policy `max_age = 0` with an arbitrary `check_interval`; for each of the
handles `0..n-1` in order, touch it and advance once. -/
def runDisabled (ci : Int) : Nat → MemState
  | 0 => (configure initState 0 ci).1
  | n + 1 => (next_generation (keep_loop_alive (runDisabled ci n) n)).1

/-- The scenario of `test_basic_2` (spec section 8, Single-handle
aging): policy `max_age = 4, check_interval = 1`; touch handle 0 once,
then advance `k` times. -/
def runSingle : Nat → MemState
  | 0 => keep_loop_alive (configure initState 4 1).1 0
  | k + 1 => (next_generation (runSingle k)).1

/-- A concrete mid-run state used to instantiate the general theorems:
policy `max_age = 4, check_interval = 1`, generation 5, two retained
handles of which handle 0 was touched at generation 5 (age 1 at the next
sweep) and handle 1 at generation 2 (age 4 at the next sweep). -/
def sampleState : MemState :=
  { max_age := 4
    check_interval := 1
    current_generation := 5
    alive_loops := [(0, none), (1, none)]
    store := fun x =>
      { generation := if x = 0 then 5 else 2, invalidated := false } }

/-- The sample state with aging disabled. -/
def disabledSample : MemState :=
  { sampleState with max_age := 0 }

/-- The state reached from the initial state by touching handle 5. -/
def touchedOnce : MemState :=
  keep_loop_alive initState 5

/-- A handle is retained exactly when some entry of `alive_loops` has it
as key. -/
theorem mem_retained_iff (s : MemState) (h : Nat) :
    h ∈ retained_handles s ↔ ∃ e ∈ s.alive_loops, e.1 = h := by
  simp [retained_handles]

/-- The `is_alive` query answers exactly retention-key membership. -/
theorem is_alive_iff (s : MemState) (h : Nat) :
    is_alive s h = true ↔ h ∈ retained_handles s := by
  simp [is_alive, retained_handles, List.any_eq_true]

/-- Key membership after keeping the stale entries: staleness depends
only on the entry's key. -/
theorem mem_map_fst_filter_stale (ma g : Nat) (st : Nat → LoopToken)
    (l : List (Nat × Option Nat)) (h : Nat) :
    h ∈ (l.filter (fun e => stale ma g st e)).map Prod.fst ↔
      h ∈ l.map Prod.fst ∧ ma ≤ g - (st h).generation := by
  simp only [List.mem_map, List.mem_filter, stale, decide_eq_true_eq]
  constructor
  · rintro ⟨e, ⟨he, hp⟩, rfl⟩
    exact ⟨⟨e, he, rfl⟩, hp⟩
  · rintro ⟨⟨e, he, rfl⟩, hp⟩
    exact ⟨e, ⟨he, hp⟩, rfl⟩

/-- Key membership after dropping the stale entries. -/
theorem mem_map_fst_filter_not_stale (ma g : Nat) (st : Nat → LoopToken)
    (l : List (Nat × Option Nat)) (h : Nat) :
    h ∈ (l.filter (fun e => ! stale ma g st e)).map Prod.fst ↔
      h ∈ l.map Prod.fst ∧ g - (st h).generation < ma := by
  simp only [List.mem_map, List.mem_filter, stale, Bool.not_eq_eq_eq_not, Bool.not_true,
    decide_eq_false_iff_not, not_le]
  constructor
  · rintro ⟨e, ⟨he, hp⟩, rfl⟩
    exact ⟨⟨e, he, rfl⟩, hp⟩
  · rintro ⟨⟨e, he, rfl⟩, hp⟩
    exact ⟨e, ⟨he, hp⟩, rfl⟩

/-- An `advance` with aging disabled only increments the counter. -/
theorem next_generation_disabled (s : MemState) (hma : s.max_age = 0) :
    next_generation s = ({ s with current_generation := s.current_generation + 1 }, []) := by
  have hc : ¬ (0 < s.max_age ∧ (s.current_generation + 1) % s.check_interval = 0) := by
    rw [hma]
    rintro ⟨h0, _⟩
    exact absurd h0 (lt_irrefl 0)
  simp [next_generation, hc]

/-- In the disabled-aging scenario the policy stays disabled and the
first `n` handles are all retained, in insertion order. -/
theorem runDisabled_spec (ci : Int) (hci : 1 ≤ ci) (n : Nat) :
    (runDisabled ci n).max_age = 0
    ∧ retained_handles (runDisabled ci n) = List.range n := by
  induction n with
  | zero =>
    have hlt : ¬ ci < 1 := not_lt.mpr hci
    exact ⟨by simp [runDisabled, configure, hlt],
           by simp [runDisabled, configure, hlt, retained_handles, initState]⟩
  | succ n ih =>
    obtain ⟨hma, hkeys⟩ := ih
    have hnot : (runDisabled ci n).alive_loops.any (fun e => e.1 == n) = false := by
      rw [List.any_eq_false]
      intro e he
      have h1 : e.1 ∈ retained_handles (runDisabled ci n) :=
        List.mem_map_of_mem Prod.fst he
      rw [hkeys, List.mem_range] at h1
      simp [Nat.ne_of_lt h1]
    have hkeysm : (runDisabled ci n).alive_loops.map Prod.fst = List.range n := hkeys
    have htouch : retained_handles (keep_loop_alive (runDisabled ci n) n)
        = List.range n ++ [n] := by
      simp [keep_loop_alive, hnot, retained_handles, hkeysm]
    have hadv := next_generation_disabled (keep_loop_alive (runDisabled ci n) n) hma
    simp only [runDisabled]
    constructor
    · rw [hadv]
      exact hma
    · rw [hadv, List.range_succ]
      exact htouch

/-- C5: with `max_age = 0`, no `advance` call removes any entry — the
retention dictionary and the eviction report of every such call are
unchanged and empty respectively, whatever the `check_interval` and the
prior operations — and in particular the `test_disabled` scenario
(touching N distinct handles interleaved with N `advance` calls) retains
all N handles. -/
theorem disabled_aging_never_evicts (s : MemState) (ci : Int) (N : Nat)
    (hma : s.max_age = 0) (hci : 1 ≤ ci) :
    (next_generation s).1.alive_loops = s.alive_loops
    ∧ (next_generation s).2 = []
    ∧ retained_handles (runDisabled ci N) = List.range N := by
  refine ⟨?_, ?_, (runDisabled_spec ci hci N).2⟩
  · rw [next_generation_disabled s hma]
  · rw [next_generation_disabled s hma]

/-- C5, instantiated: an `advance` on the disabled sample state keeps
its retention dictionary and evicts nothing, and the three-handle
disabled scenario retains all three handles. -/
theorem disabled_aging_never_evicts_witness :
    (next_generation disabledSample).1.alive_loops = disabledSample.alive_loops
    ∧ (next_generation disabledSample).2 = []
    ∧ retained_handles (runDisabled 2 3) = List.range 3 :=
  disabled_aging_never_evicts disabledSample 2 3 rfl (by decide)

/-- C2: every `advance` increments the generation counter by one; it
reports a handle evicted exactly when `max_age > 0`, the incremented
counter is divisible by `check_interval`, the handle was retained and
its age has reached `max_age`; and a handle stays retained exactly when
it was retained and, in case a sweep is due, its age is still below
`max_age` — so a call failing either sweep condition removes nothing. -/
theorem advance_sweeps_iff_enabled_and_due (s : MemState) (h : Nat) :
    (next_generation s).1.current_generation = s.current_generation + 1
    ∧ (h ∈ (next_generation s).2 ↔
        (0 < s.max_age ∧ (s.current_generation + 1) % s.check_interval = 0
          ∧ h ∈ retained_handles s
          ∧ s.max_age ≤ (s.current_generation + 1) - (s.store h).generation))
    ∧ (h ∈ retained_handles (next_generation s).1 ↔
        (h ∈ retained_handles s
          ∧ ((0 < s.max_age ∧ (s.current_generation + 1) % s.check_interval = 0) →
              (s.current_generation + 1) - (s.store h).generation < s.max_age))) := by
  by_cases hc : 0 < s.max_age ∧ (s.current_generation + 1) % s.check_interval = 0
  · refine ⟨by simp [next_generation, hc], ?_, ?_⟩
    · simp only [next_generation, if_pos hc]
      rw [mem_map_fst_filter_stale]
      simp [retained_handles, hc.1, hc.2]
    · simp only [next_generation, if_pos hc, retained_handles]
      rw [mem_map_fst_filter_not_stale]
      constructor
      · rintro ⟨hmem, hlt⟩
        exact ⟨hmem, fun _ => hlt⟩
      · rintro ⟨hmem, himp⟩
        exact ⟨hmem, himp hc⟩
  · refine ⟨by simp [next_generation, hc], ?_, ?_⟩
    · simp only [next_generation, if_neg hc]
      constructor
      · intro hmem
        simp at hmem
      · rintro ⟨h1, h2, _⟩
        exact absurd ⟨h1, h2⟩ hc
    · simp only [next_generation, if_neg hc, retained_handles]
      constructor
      · intro hmem
        exact ⟨hmem, fun hcc => absurd hcc hc⟩
      · rintro ⟨hmem, _⟩
        exact hmem

/-- C4: with `max_age = 4` and `check_interval = 1`, touching each of
ten distinct handles in turn, each touch followed by one `advance`,
leaves exactly the last three handles (7, 8 and 9) retained — the
scenario of `test_basic` and of spec section 8, Basic aging. -/
theorem basic_aging_retains_last_three :
    retained_handles (runBasic 10) = [7, 8, 9] := by decide

/-- C3: with `max_age = 4` and `check_interval = 1`, after one touch of
handle 0 followed by ten `advance` calls, the handle is retained after
advance calls 1 through 3 and gone from call 4 onward: a handle idle for
exactly `max_age` generations is evicted at the first eligible sweep
(the boundary is age greater-or-equal `max_age`) — the scenario of
`test_basic_2` and of spec section 8, Single-handle aging. -/
theorem single_handle_evicted_at_exact_max_age :
    (∀ k, k < 4 → 1 ≤ k → retained_handles (runSingle k) = [0])
    ∧ (∀ k, k < 11 → 4 ≤ k → retained_handles (runSingle k) = []) := by
  decide

/-- C1: immediately after an `advance` call in which a sweep ran
(`max_age > 0` and the incremented generation divisible by
`check_interval`), no retained handle has age — current generation minus
its last-touched generation — at or above `max_age`. -/
theorem sweep_leaves_no_stale_entries (s : MemState) (h : Nat)
    (hma : 0 < s.max_age)
    (hck : (s.current_generation + 1) % s.check_interval = 0)
    (hmem : h ∈ retained_handles (next_generation s).1) :
    (next_generation s).1.current_generation
      - (((next_generation s).1.store h).generation) < s.max_age := by
  have hc : 0 < s.max_age ∧ (s.current_generation + 1) % s.check_interval = 0 := ⟨hma, hck⟩
  simp only [next_generation, if_pos hc, retained_handles] at hmem ⊢
  simp only [List.mem_map, List.mem_filter] at hmem
  obtain ⟨e, ⟨he, hst⟩, rfl⟩ := hmem
  simp only [stale, Bool.not_eq_eq_eq_not, Bool.not_true, decide_eq_false_iff_not,
    not_le] at hst
  exact hst

/-- C1, instantiated: in the sample state the sweep condition holds, and
the one surviving handle is strictly younger than `max_age`. -/
theorem sweep_leaves_no_stale_entries_witness :
    (0 : Nat) ∈ retained_handles (next_generation sampleState).1
    ∧ (next_generation sampleState).1.current_generation
        - (((next_generation sampleState).1.store 0).generation) < sampleState.max_age :=
  ⟨by decide, sweep_leaves_no_stale_entries sampleState 0 (by decide) (by decide) (by decide)⟩

/-- C6: a touch stamps the current generation onto the handle object, so
the handle's age is 0 at that moment and it is retained; an absent
(evicted) handle stays dead under `advance` and under touches of other
handles; and a handle whose age at the next generation is still below
`max_age` — in particular one just re-touched — is neither reported
evicted nor dropped by the next `advance`. -/
theorem touch_resets_age_and_reinserts (s : MemState) (h g : Nat) :
    ((keep_loop_alive s h).store h).generation = s.current_generation
    ∧ (keep_loop_alive s h).current_generation
        - ((keep_loop_alive s h).store h).generation = 0
    ∧ is_alive (keep_loop_alive s h) h = true
    ∧ (is_alive s h = false → is_alive (next_generation s).1 h = false)
    ∧ (h ≠ g → is_alive s h = false → is_alive (keep_loop_alive s g) h = false)
    ∧ (is_alive s h = true →
        (s.current_generation + 1) - (s.store h).generation < s.max_age →
        h ∉ (next_generation s).2 ∧ is_alive (next_generation s).1 h = true) := by
  refine ⟨by simp [keep_loop_alive], by simp [keep_loop_alive], ?_, ?_, ?_, ?_⟩
  · by_cases hcase : s.alive_loops.any (fun e => e.1 == h) = true
    · simp only [is_alive, keep_loop_alive]
      rw [if_pos hcase, List.any_eq_true]
      obtain ⟨e, he, hb⟩ := List.any_eq_true.mp hcase
      refine ⟨(e.1, none), List.mem_map.mpr ⟨e, he, ?_⟩, by simpa using hb⟩
      rw [if_pos hb]
    · simp only [is_alive, keep_loop_alive]
      rw [if_neg hcase, List.any_eq_true]
      exact ⟨(h, none), List.mem_append.mpr (Or.inr (by simp)), by simp⟩
  · intro hfalse
    rw [is_alive, List.any_eq_false] at hfalse
    by_cases hc : 0 < s.max_age ∧ (s.current_generation + 1) % s.check_interval = 0
    · simp only [next_generation, if_pos hc, is_alive]
      rw [List.any_eq_false]
      intro e he
      exact hfalse e (List.mem_filter.mp he).1
    · simp only [next_generation, if_neg hc, is_alive]
      rw [List.any_eq_false]
      exact hfalse
  · intro hne hfalse
    rw [is_alive, List.any_eq_false] at hfalse
    simp only [is_alive, keep_loop_alive]
    by_cases hcase : s.alive_loops.any (fun e => e.1 == g) = true
    · rw [if_pos hcase, List.any_eq_false]
      intro e he
      obtain ⟨e0, he0, rfl⟩ := List.mem_map.mp he
      have h1 := hfalse e0 he0
      by_cases hb : (e0.1 == g) = true
      · simpa [hb] using h1
      · simpa [hb] using h1
    · rw [if_neg hcase, List.any_eq_false]
      intro e he
      rcases List.mem_append.mp he with h1 | h1
      · exact hfalse e h1
      · have h2 : e = (g, none) := by simpa using h1
        subst h2
        simp
        exact Ne.symm hne
  · intro htrue hlt
    rw [is_alive, List.any_eq_true] at htrue
    obtain ⟨e, he, hbe⟩ := htrue
    have hee : e.1 = h := by simpa using hbe
    by_cases hc : 0 < s.max_age ∧ (s.current_generation + 1) % s.check_interval = 0
    · simp only [next_generation, if_pos hc]
      constructor
      · rw [mem_map_fst_filter_stale]
        rintro ⟨_, hge⟩
        omega
      · rw [is_alive, List.any_eq_true]
        refine ⟨e, ?_, hbe⟩
        rw [List.mem_filter]
        refine ⟨he, ?_⟩
        simp [stale, hee]
        omega
    · simp only [next_generation, if_neg hc]
      refine ⟨by simp, ?_⟩
      rw [is_alive, List.any_eq_true]
      exact ⟨e, he, hbe⟩

/-- C7: for a well-formed state (no duplicate retention keys, true of
every reachable state), an `advance` reports exactly the handles it
removed from the retention dictionary — a handle is reported evicted
precisely when it was retained before and is not after — with no
duplicate report, and reports nothing when no sweep ran. -/
theorem advance_reports_evictions_exactly (s : MemState) (h : Nat)
    (hwf : (retained_handles s).Nodup) :
    (h ∈ (next_generation s).2 ↔
      (h ∈ retained_handles s ∧ h ∉ retained_handles (next_generation s).1))
    ∧ (next_generation s).2.Nodup
    ∧ (¬ (0 < s.max_age ∧ (s.current_generation + 1) % s.check_interval = 0) →
        (next_generation s).2 = []) := by
  by_cases hc : 0 < s.max_age ∧ (s.current_generation + 1) % s.check_interval = 0
  · refine ⟨?_, ?_, fun hnc => absurd hc hnc⟩
    · simp only [next_generation, if_pos hc, retained_handles]
      rw [mem_map_fst_filter_stale, mem_map_fst_filter_not_stale]
      constructor
      · rintro ⟨hmem, hge⟩
        refine ⟨hmem, ?_⟩
        rintro ⟨_, hage⟩
        omega
      · rintro ⟨hmem, hnk⟩
        refine ⟨hmem, ?_⟩
        by_contra hnge
        exact hnk ⟨hmem, by omega⟩
    · simp only [next_generation, if_pos hc]
      have hsub : (s.alive_loops.filter
            (fun e => stale s.max_age (s.current_generation + 1) s.store e)).Sublist
          s.alive_loops :=
        List.filter_sublist _
      exact List.Nodup.sublist (hsub.map Prod.fst) hwf
  · refine ⟨?_, ?_, fun _ => by simp [next_generation, if_neg hc]⟩
    · simp only [next_generation, if_neg hc, retained_handles]
      constructor
      · intro hmem
        simp at hmem
      · rintro ⟨h1, h2⟩
        exact absurd h1 h2
    · simp [next_generation, if_neg hc]

/-- C7, instantiated: in the sample state (distinct retained keys 0 and
1), handle 1 is reported evicted exactly because it was retained and the
sweep dropped it, and the report has no duplicates. -/
theorem advance_reports_evictions_exactly_witness :
    ((1 : Nat) ∈ (next_generation sampleState).2 ↔
      ((1 : Nat) ∈ retained_handles sampleState
        ∧ (1 : Nat) ∉ retained_handles (next_generation sampleState).1))
    ∧ (next_generation sampleState).2.Nodup
    ∧ (¬ (0 < sampleState.max_age
          ∧ (sampleState.current_generation + 1) % sampleState.check_interval = 0) →
        (next_generation sampleState).2 = []) :=
  advance_reports_evictions_exactly sampleState 1 (by decide)

/-- C8: `configure` reports an error precisely when `max_age < 0` or
`check_interval < 1`; on error the state is unchanged (all-or-nothing);
on success the two policy fields hold exactly the requested values, so
the next `advance` runs under the new policy; and in every case the
retention dictionary, the generation counter and the handle objects are
untouched — `configure` never sweeps. -/
theorem configure_validates_and_is_atomic (s : MemState) (a b : Int) :
    ((configure s a b).2 = true ↔ (a < 0 ∨ b < 1))
    ∧ ((configure s a b).2 = true → (configure s a b).1 = s)
    ∧ ((configure s a b).2 = false →
        (((configure s a b).1.max_age : Int) = a
          ∧ ((configure s a b).1.check_interval : Int) = b))
    ∧ (configure s a b).1.alive_loops = s.alive_loops
    ∧ (configure s a b).1.current_generation = s.current_generation
    ∧ (configure s a b).1.store = s.store := by
  by_cases hc : a < 0 ∨ b < 1
  · simp [configure, hc]
  · have ha : 0 ≤ a := by omega
    have hb : 0 ≤ b := by omega
    simp [configure, hc, Int.toNat_of_nonneg ha, Int.toNat_of_nonneg hb]

/-- Every entry of `alive_loops` in any reachable state has value
`none`. -/
theorem reachable_values_none (s : MemState) (hr : Reachable s) :
    ∀ e ∈ s.alive_loops, e.2 = none := by
  induction hr with
  | init =>
    intro e he
    simp [initState] at he
  | config s0 a b _ ih =>
    intro e he
    by_cases hc : a < 0 ∨ b < 1
    · simp only [configure, if_pos hc] at he
      exact ih e he
    · simp only [configure, if_neg hc] at he
      exact ih e he
  | touch s0 h _ ih =>
    intro e he
    simp only [keep_loop_alive] at he
    by_cases hcase : s0.alive_loops.any (fun x => x.1 == h) = true
    · rw [if_pos hcase] at he
      obtain ⟨e0, he0, rfl⟩ := List.mem_map.mp he
      by_cases hb : (e0.1 == h) = true
      · simp [hb]
      · simp only [hb, if_false]
        exact ih e0 he0
    · rw [if_neg hcase] at he
      rcases List.mem_append.mp he with h1 | h1
      · exact ih e h1
      · have h2 : e = (h, none) := by simpa using h1
        subst h2
        rfl
  | advance s0 _ ih =>
    intro e he
    by_cases hc : 0 < s0.max_age ∧ (s0.current_generation + 1) % s0.check_interval = 0
    · simp only [next_generation, if_pos hc] at he
      exact ih e (List.mem_filter.mp he).1
    · simp only [next_generation, if_neg hc] at he
      exact ih e he

/-- C10: in every reachable state, every entry of the retention
dictionary `alive_loops` maps its handle to `none` — the dictionary
stores no per-handle payload, so the retained set is exactly its key
set. -/
theorem alive_loops_values_are_none (s : MemState) (e : Nat × Option Nat)
    (hr : Reachable s) (he : e ∈ s.alive_loops) : e.2 = none :=
  reachable_values_none s hr e he

/-- C10, instantiated: the state reached by one touch retains its handle
with value `none`. -/
theorem alive_loops_values_are_none_witness :
    ((5 : Nat), (none : Option Nat)) ∈ touchedOnce.alive_loops
    ∧ (((5 : Nat), (none : Option Nat)) : Nat × Option Nat).2 = none :=
  ⟨by decide, alive_loops_values_are_none touchedOnce (5, none)
      (Reachable.touch initState 5 Reachable.init) (by decide)⟩

end MemMgr
